import Mathlib

/-!
Verification of the skill-mapping backend.

Shallow embedding of the Python sources of the skill-mapping backend
(`skill_store.py`, `lightcast_service.py`, `coursera_service.py`,
`main.py`) and proofs about them.

Modelling conventions:
* A pandas DataFrame of skill rows is a `List SkillRecord`; the CSV file on
  disk is an `Option Store` (`none` = the file does not exist).  `fillna("")`
  is represented by the record fields being total `String`s.
* Python `str.strip` / `str.lower` / substring `in` are translated to
  executable functions over `List Char` (`trimL`, `Char.toLower`,
  `containsL`).  `strip` is modelled on the common whitespace characters.
* Python truthiness of optional string arguments (`if remote_skill_id:`) is
  `truthy`: `None` and `""` are falsy.
* Pandas `Series.str.contains(pat)` performs a regular-expression search by
  default.  The contains-based filter predicates here compute substring
  containment, which agrees with that regex search exactly on patterns free
  of regex metacharacters; theorems that depend on those predicates carry a
  `regexLiteral` hypothesis on the filter value, and metacharacter patterns
  (regex matching proper, or `re.error` on invalid patterns) are outside the
  model.
* A Python function that may `raise ValueError` returns `Except String α`;
  the HTTP handlers of `main.py` are modelled over `Except PyError α` so the
  `except ValueError` / `except Exception` distinction is expressible.
* Outbound HTTP (the Lightcast taxonomy search, the Coursera page fetch) is
  an oracle argument: the taxonomy search is a function
  `String → TaxonomyOutcome`, a fetched course detail page is a
  `List PageNode` already parsed.
-/

namespace SkillMapping

/-! ## String primitives (translations of Python `str` operations) -/

/-- Whitespace test used by the model of Python `str.strip`. -/
def isWs (c : Char) : Bool :=
  c == ' ' || c == '\t' || c == '\n' || c == '\r'

/-- Python `str.strip` on a character list: drop whitespace at both ends. -/
def trimL (l : List Char) : List Char :=
  ((l.dropWhile isWs).reverse.dropWhile isWs).reverse

/-- Python `s.strip()`. -/
def strStrip (s : String) : String := String.mk (trimL s.data)

/-- Python `s.lower()` (ASCII case folding, as used by the data here). -/
def strLower (s : String) : String := String.mk (s.data.map Char.toLower)

/-- Does `needle` occur at the start of `hay`? -/
def startsWithL : List Char → List Char → Bool
  | [], _ => true
  | _ :: _, [] => false
  | n :: ns, h :: hs => n == h && startsWithL ns hs

/-- Python substring test `needle in hay` on character lists. -/
def containsL (needle : List Char) : List Char → Bool
  | [] => needle.isEmpty
  | c :: rest => startsWithL needle (c :: rest) || containsL needle rest

/-- Python `needle in hay` on strings. -/
def strContains (hay needle : String) : Bool := containsL needle.data hay.data

/-- Python truthiness of an optional string (`None` and `""` are falsy). -/
def truthy : Option String → Bool
  | none => false
  | some s => !s.isEmpty

/-- Metacharacters of Python regular expressions: `. ^ $ * + ? { } [ ] \ | ( )`.
A pattern containing none of these is matched by `re.search` exactly as a
literal substring, and compiling it can never raise `re.error`. -/
def isRegexMeta (c : Char) : Bool :=
  c == '.' || c == '^' || c == '$' || c == '*' || c == '+' || c == '?' ||
  c == '\x7b' || c == '\x7d' || c == '[' || c == ']' || c == '\\' ||
  c == '|' || c == '(' || c == ')'

/-- A regex-literal pattern: free of regex metacharacters.  Pandas
`Series.str.contains(pat)` treats `pat` as a regular expression by default;
on regex-literal patterns that regex search coincides with plain substring
containment (which is what this file computes), so every theorem about the
contains-based filters restricts the filter value to `regexLiteral` patterns.
Metacharacter patterns — where the program does regex matching, or raises
`re.error` on an invalid pattern — are outside the model. -/
def regexLiteral (s : String) : Bool := s.data.all fun c => !isRegexMeta c

/-! ## skill_store.py -/

/-- One row of `normalized_skills.csv` (the columns of `COLUMNS`). -/
structure SkillRecord where
  remote_skill_id : String
  workday_skill : String
  lightcast_skill : String
  lightcast_skill_id : String
  skill_type : String
  category : String
  status : String
deriving DecidableEq, Repr

/-- The in-memory DataFrame. -/
abbrev Store := List SkillRecord

/-- Model of `load_df`: read the CSV if it exists, else an empty frame; `fillna("")`
is implicit in the total `String` fields. -/
def load_df : Option Store → Store
  | none => []
  | some s => s

/-- Row test `df["remote_skill_id"].str.strip() == remote_skill_id.strip()`. -/
def remoteMatches (r : SkillRecord) (rid : String) : Bool :=
  strStrip r.remote_skill_id == strStrip rid

/-- Row test `df["workday_skill"].str.lower().str.contains(workday_skill.lower())`.
Pandas `str.contains` is a regex search; this model is its restriction to
`regexLiteral` filter values, on which the regex search equals the substring
containment computed here (see `regexLiteral`); theorems whose truth depends
on this predicate hypothesize `regexLiteral` on the filter value. -/
def workdayFilterMatches (r : SkillRecord) (w : String) : Bool :=
  strContains (strLower r.workday_skill) (strLower w)

/-- Row test `df["lightcast_skill"].str.lower().str.contains(lightcast_skill.lower())`.
Same `regexLiteral` restriction as `workdayFilterMatches`: the regex search
of `str.contains` equals this substring containment only on metacharacter-free
filter values, and theorems depending on it hypothesize `regexLiteral`. -/
def lightcastFilterMatches (r : SkillRecord) (l : String) : Bool :=
  strContains (strLower r.lightcast_skill) (strLower l)

/-- Row test `df["workday_skill"].str.lower().str.strip() == workday_skill.lower().strip()`
(the exact match used by update and delete). -/
def workdayExactMatches (r : SkillRecord) (w : String) : Bool :=
  strStrip (strLower r.workday_skill) == strStrip (strLower w)

/-- Model of `skill_store.list_skills`: validate each given filter against the whole
frame first (raising `ValueError` when a given filter matches no row), then
apply the filters in sequence and return the surviving records. -/
def list_skills (file : Option Store)
    (remote_skill_id workday_skill lightcast_skill : Option String) :
    Except String (List SkillRecord) :=
  let df := load_df file
  if truthy remote_skill_id &&
      !(df.any (remoteMatches · (remote_skill_id.getD ""))) then
    Except.error "remote_skill_id not found"
  else if truthy workday_skill &&
      !(df.any (workdayFilterMatches · (workday_skill.getD ""))) then
    Except.error "workday_skill not found"
  else if truthy lightcast_skill &&
      !(df.any (lightcastFilterMatches · (lightcast_skill.getD ""))) then
    Except.error "lightcast_skill not found"
  else
    let f1 := if truthy remote_skill_id then
        df.filter (remoteMatches · (remote_skill_id.getD "")) else df
    let f2 := if truthy workday_skill then
        f1.filter (workdayFilterMatches · (workday_skill.getD "")) else f1
    let f3 := if truthy lightcast_skill then
        f2.filter (lightcastFilterMatches · (lightcast_skill.getD "")) else f2
    Except.ok f3

/-- Model of `skill_store.update_lightcast_skill`: trimmed case-insensitive exact match
on `workday_skill`; raises when no row matches, else overwrites
`lightcast_skill` on every matching row and saves.  The returned store is the
saved file content. -/
def update_lightcast_skill (file : Option Store)
    (workday_skill new_lightcast_skill : String) : Except String Store :=
  let df := load_df file
  if !(df.any (workdayExactMatches · workday_skill)) then
    Except.error "Workday skill not found"
  else
    Except.ok (df.map fun r =>
      if workdayExactMatches r workday_skill then
        { r with lightcast_skill := new_lightcast_skill }
      else r)

/-- Model of `skill_store.delete_skill`: requires at least one truthy selector; the
`remote_skill_id` branch runs first (`elif` for `workday_skill`); each branch
raises when its selector matches nothing, else drops the matching rows; the
result is the saved file content. -/
def delete_skill (file : Option Store)
    (remote_skill_id workday_skill : Option String) : Except String Store :=
  if !truthy remote_skill_id && !truthy workday_skill then
    Except.error "Either remote_skill_id or workday_skill must be provided"
  else
    let df := load_df file
    if truthy remote_skill_id then
      if !(df.any (remoteMatches · (remote_skill_id.getD ""))) then
        Except.error "remote_skill_id not found"
      else
        Except.ok (df.filter fun r => !remoteMatches r (remote_skill_id.getD ""))
    else
      if !(df.any (workdayExactMatches · (workday_skill.getD ""))) then
        Except.error "workday_skill not found"
      else
        Except.ok (df.filter fun r => !workdayExactMatches r (workday_skill.getD ""))

/-- File state after a call to `delete_skill`: `save_df` runs only when no
exception was raised, so on the error path the file is untouched. -/
def delete_skill_file_after (file : Option Store)
    (remote_skill_id workday_skill : Option String) : Option Store :=
  match delete_skill file remote_skill_id workday_skill with
  | Except.ok s => some s
  | Except.error _ => file

/-- Model of `skill_store.get_lightcast_ready_df`: pre-filter to rows with non-blank
`lightcast_skill`, fail if that base set is empty, then the same
validate-then-filter treatment of the two optional arguments as `list_skills`. -/
def get_lightcast_ready_df (file : Option Store)
    (remote_skill_id workday_skill : Option String) :
    Except String (List SkillRecord) :=
  let df := load_df file
  let filtered := df.filter fun r => strStrip r.lightcast_skill != ""
  if filtered.isEmpty then
    Except.error "No records with valid lightcast_skill found"
  else if truthy remote_skill_id &&
      !(filtered.any (remoteMatches · (remote_skill_id.getD ""))) then
    Except.error "remote_skill_id not found in lightcast-ready records"
  else if truthy workday_skill &&
      !(filtered.any (workdayFilterMatches · (workday_skill.getD ""))) then
    Except.error "workday_skill not found in lightcast-ready records"
  else
    let g1 := if truthy remote_skill_id then
        filtered.filter (remoteMatches · (remote_skill_id.getD "")) else filtered
    let g2 := if truthy workday_skill then
        g1.filter (workdayFilterMatches · (workday_skill.getD "")) else g1
    Except.ok g2

/-! ## lightcast_service.py -/

/-- One element of the `data` array returned by the taxonomy search. -/
structure TaxonomyResult where
  name : String
  id : String
  skill_type : String
  category : String
deriving DecidableEq, Repr

/-- Outcome of one taxonomy search request: either the parsed `data` list, or
a raised transport/HTTP error (`requests` exception / `raise_for_status`). -/
inductive TaxonomyOutcome where
  | ok (data : List TaxonomyResult)
  | fail (msg : String)
deriving DecidableEq, Repr

/-- One row of the uploaded input file, as `normalize_file` reads it. -/
structure InputRow where
  remote_skill_id : String
  skill_name : String
deriving DecidableEq, Repr

/-- The per-row body of the loop in `lightcast_service.normalize_file`:
strip the skill name, skip the row when it is empty, otherwise query the
taxonomy (`search`) and build the stored record from the outcome. -/
def normalize_row (search : String → TaxonomyOutcome) (row : InputRow) :
    Option SkillRecord :=
  let skill := strStrip row.skill_name
  if skill == "" then none
  else some (match search skill with
    | TaxonomyOutcome.ok (s :: _) =>
        { remote_skill_id := row.remote_skill_id
          workday_skill := skill
          lightcast_skill := s.name
          lightcast_skill_id := s.id
          skill_type := s.skill_type
          category := s.category
          status := "SUCCESS" }
    | TaxonomyOutcome.ok [] =>
        { remote_skill_id := row.remote_skill_id
          workday_skill := skill
          lightcast_skill := ""
          lightcast_skill_id := ""
          skill_type := ""
          category := ""
          status := "NO_MATCH" }
    | TaxonomyOutcome.fail _ =>
        { remote_skill_id := row.remote_skill_id
          workday_skill := skill
          lightcast_skill := ""
          lightcast_skill_id := ""
          skill_type := ""
          category := ""
          status := "ERROR" })

/-- Model of `lightcast_service.normalize_file`: the loop over all input rows; the
result list is what gets written to `normalized_skills.csv`. -/
def normalize_file (search : String → TaxonomyOutcome) (rows : List InputRow) :
    Store :=
  rows.filterMap (normalize_row search)

/-! ## coursera_service.py -/

/-- A node of a parsed course detail page, in document order: an `h2` heading
with its stripped text, a `ul` list with the raw texts of its `a` anchors, or
any other element. -/
inductive PageNode where
  | heading (text : String)
  | ul (linkTexts : List String)
  | other
deriving DecidableEq, Repr

/-- Model of `h2.find_next("ul")`: the first `ul` in document order after the heading. -/
def firstListAfter : List PageNode → Option (List String)
  | [] => none
  | PageNode.ul ls :: _ => some ls
  | _ :: rest => firstListAfter rest

/-- The anchor texts collected from one `ul`: each `a.get_text(strip=True)`,
kept only when non-empty. -/
def linkSkills (ls : List String) : List String :=
  (ls.map strStrip).filter (fun s => s != "")

/-- The accumulation loop of `fetch_course_skills`: for every `h2` whose
stripped text contains "skill" case-insensitively, append the link texts of
the first `ul` following it (if any). -/
def gatherSkills : List PageNode → List String
  | [] => []
  | PageNode.heading t :: rest =>
      if strContains (strLower (strStrip t)) "skill" then
        (match firstListAfter rest with
          | some ls => linkSkills ls
          | none => []) ++ gatherSkills rest
      else gatherSkills rest
  | _ :: rest => gatherSkills rest

/-- Order-preserving deduplication, Python `dict.fromkeys`: the first
occurrence of each value is kept, later duplicates are dropped. -/
def dedupFirstAux (seen : List String) : List String → List String
  | [] => []
  | x :: xs =>
      if x ∈ seen then dedupFirstAux seen xs
      else x :: dedupFirstAux (x :: seen) xs

/-- Dedup in the style of `", ".join(dict.fromkeys(x))`, first occurrence wins. -/
def dedupFirst (l : List String) : List String := dedupFirstAux [] l

/-- Lexicographic (code-point) `≤` on character lists, Python string order. -/
def leCharsB : List Char → List Char → Bool
  | [], _ => true
  | _ :: _, [] => false
  | a :: as, b :: bs =>
      if a.toNat < b.toNat then true
      else if b.toNat < a.toNat then false
      else leCharsB as bs

/-- Python `a <= b` on strings (lexicographic by code point). -/
def strLeB (a b : String) : Bool := leCharsB a.data b.data

/-- Insert into a sorted list (the step of `sorted`). -/
def insertSorted (x : String) : List String → List String
  | [] => [x]
  | y :: ys => if strLeB x y then x :: y :: ys else y :: insertSorted x ys

/-- Python `sorted` on strings (insertion sort; Python sorted is a stable
sort, and the two agree on duplicate-free input under a total order). -/
def sortStrings : List String → List String
  | [] => []
  | x :: xs => insertSorted x (sortStrings xs)

/-- Python `", ".join(l)` at the character-list level. -/
def joinL : List (List Char) → List Char
  | [] => []
  | [x] => x
  | x :: y :: rest => x ++ ',' :: ' ' :: joinL (y :: rest)

/-- Python `", ".join(l)` on strings. -/
def joinCS (l : List String) : String := String.mk (joinL (l.map String.data))

/-- Python `s.split(", ")` at the character-list level: leftmost separator
first; the empty string splits to `[""]`. -/
def splitL : List Char → List (List Char)
  | [] => [[]]
  | [c] => [[c]]
  | c1 :: c2 :: rest =>
      if c1 = ',' ∧ c2 = ' ' then [] :: splitL rest
      else
        match splitL (c2 :: rest) with
        | [] => [[c1]]
        | p :: ps => (c1 :: p) :: ps

/-- Python `s.split(", ")` on strings. -/
def splitCS (s : String) : List String := (splitL s.data).map String.mk

/-- Model of `coursera_service.fetch_course_skills` on an already-fetched, parsed
course detail page (the HTTP fetch and its error fallback to `""` are outside
the model): collect from every skill heading, then
`", ".join(sorted(set(skills)))`. -/
def fetch_course_skills (page : List PageNode) : String :=
  joinCS (sortStrings (dedupFirst (gatherSkills page)))

/-- Spec-worded variant of the accumulation: stop at the *first* heading
whose text contains "skill" and take only the first list following it. -/
def gatherFirstHeading : List PageNode → List String
  | [] => []
  | PageNode.heading t :: rest =>
      if strContains (strLower (strStrip t)) "skill" then
        match firstListAfter rest with
        | some ls => linkSkills ls
        | none => []
      else gatherFirstHeading rest
  | _ :: rest => gatherFirstHeading rest

/-- Modelled from the spec (for comparison with `fetch_course_skills`): the
extraction policy as the spec words it — locate *a* heading whose text
contains "skill" (the first such), take only the first list following that
heading, and collect its link texts, deduplicated and sorted. -/
def fetch_course_skills_spec_first_heading (page : List PageNode) : String :=
  joinCS (sortStrings (dedupFirst (gatherFirstHeading page)))

/-- One emitted row of the Coursera mapping pass, before aggregation. -/
structure CourseRow where
  remote_skill_id : String
  workday_skill : String
  lightcast_skill : String
  lightcast_skill_id : String
  search_skill_used : String
  search_skill_source : String
  course_name : String
  course_slug : String
  course_link : String
  course_skills : String
deriving DecidableEq, Repr

/-- The aggregation applied by `process_coursera` to the plain string columns
of one group: `", ".join(dict.fromkeys(x))`. -/
def aggFirstWins (vals : List String) : String := joinCS (dedupFirst vals)

/-- The aggregation applied by `process_coursera` to `course_skills`:
`", ".join(dict.fromkeys(", ".join(x).split(", ")))`. -/
def aggSkills (vals : List String) : String :=
  joinCS (dedupFirst (splitCS (joinCS vals)))

/-- Model of `process_coursera`: the merged output row for one non-empty group of
emitted rows sharing the six key columns (`g0 :: rest`, in emission order). -/
def aggGroup (g0 : CourseRow) (rest : List CourseRow) : CourseRow :=
  let g := g0 :: rest
  { g0 with
    course_name := aggFirstWins (g.map (·.course_name))
    course_slug := aggFirstWins (g.map (·.course_slug))
    course_link := aggFirstWins (g.map (·.course_link))
    course_skills := aggSkills (g.map (·.course_skills)) }

/-! ## main.py -/

/-- A Python exception as the handlers of `main.py` classify it. -/
inductive PyError where
  | valueError (msg : String)
  | otherError (msg : String)
deriving DecidableEq, Repr

/-- Message `str(e)` of a classified exception. -/
def pyMsg : PyError → String
  | PyError.valueError m => m
  | PyError.otherError m => m

/-- The outcome of a request: a success body or an `HTTPException`. -/
inductive ApiResult (α : Type) where
  | success (body : α)
  | httpError (status : Nat) (detail : String)
deriving DecidableEq, Repr

/-- The store functions only ever raise `ValueError`. -/
def liftVE : Except String α → Except PyError α
  | Except.ok a => Except.ok a
  | Except.error m => Except.error (PyError.valueError m)

/-- The `try/except` of the GET `/skills` handler: every exception — the
`ValueError`s of validation included — becomes a 500 with `str(e)`. -/
def handle_list_result (res : Except PyError (List SkillRecord)) :
    ApiResult (List SkillRecord) :=
  match res with
  | Except.ok rows => ApiResult.success rows
  | Except.error e => ApiResult.httpError 500 (pyMsg e)

/-- The `try/except` of the PUT `/skills/update` handler: `ValueError` → 404,
any other exception → 500, both with `str(e)`. -/
def handle_update_result (res : Except PyError Store) : ApiResult Store :=
  match res with
  | Except.ok s => ApiResult.success s
  | Except.error (PyError.valueError m) => ApiResult.httpError 404 m
  | Except.error (PyError.otherError m) => ApiResult.httpError 500 m

/-- The `try/except` of the DELETE `/skills/delete` handler: `ValueError` →
400, any other exception → 500. -/
def handle_delete_result (res : Except PyError Store) : ApiResult Store :=
  match res with
  | Except.ok s => ApiResult.success s
  | Except.error (PyError.valueError m) => ApiResult.httpError 400 m
  | Except.error (PyError.otherError m) => ApiResult.httpError 500 m

/-- The `try/except` of the GET `/skills/lightcast-ready` handler:
`ValueError` → 404, any other exception → 500. -/
def handle_lightcast_ready_result (res : Except PyError (List SkillRecord)) :
    ApiResult (List SkillRecord) :=
  match res with
  | Except.ok rows => ApiResult.success rows
  | Except.error (PyError.valueError m) => ApiResult.httpError 404 m
  | Except.error (PyError.otherError m) => ApiResult.httpError 500 m

/-- The `try/except` of the GET `/coursera/mapped-skills` handler (the
coursera mapped-skills listing, delegating to
`coursera_service.list_coursera_mapped_skills`): `ValueError` → 404, any
other exception → 500. -/
def handle_coursera_list_result (res : Except PyError (List CourseRow)) :
    ApiResult (List CourseRow) :=
  match res with
  | Except.ok rows => ApiResult.success rows
  | Except.error (PyError.valueError m) => ApiResult.httpError 404 m
  | Except.error (PyError.otherError m) => ApiResult.httpError 500 m

/-- GET `/skills`: delegate to `skill_store.list_skills`, wrap per its handler. -/
def api_list_skills (file : Option Store)
    (remote_skill_id workday_skill lightcast_skill : Option String) :
    ApiResult (List SkillRecord) :=
  handle_list_result (liftVE (list_skills file remote_skill_id workday_skill lightcast_skill))

/-- PUT `/skills/update`: delegate to `skill_store.update_lightcast_skill`. -/
def api_update_skill (file : Option Store) (workday_skill lightcast_skill : String) :
    ApiResult Store :=
  handle_update_result (liftVE (update_lightcast_skill file workday_skill lightcast_skill))

/-- DELETE `/skills/delete`: delegate to `skill_store.delete_skill`. -/
def api_delete_skill (file : Option Store)
    (remote_skill_id workday_skill : Option String) : ApiResult Store :=
  handle_delete_result (liftVE (delete_skill file remote_skill_id workday_skill))

/-! ## Helper lemmas -/

theorem startsWithL_iff (n : List Char) : ∀ h, startsWithL n h = true ↔ n <+: h := by
  induction n with
  | nil => intro h; simp [startsWithL]
  | cons c cs ih =>
      intro h
      cases h with
      | nil => simp [startsWithL]
      | cons d ds => simp [startsWithL, List.cons_prefix_cons, ih]

theorem containsL_iff (n : List Char) : ∀ h, containsL n h = true ↔ n <:+: h := by
  intro h
  induction h with
  | nil => simp [containsL, List.isEmpty_iff, List.infix_nil]
  | cons c cs ih =>
      simp [containsL, startsWithL_iff, ih, List.infix_cons_iff]

theorem trimL_infix (l : List Char) : trimL l <:+: l := by
  unfold trimL
  have h1 : (l.dropWhile isWs) <:+ l := List.dropWhile_suffix _
  have h2 : ((l.dropWhile isWs).reverse.dropWhile isWs) <:+ (l.dropWhile isWs).reverse :=
    List.dropWhile_suffix _
  have h3 : ((l.dropWhile isWs).reverse.dropWhile isWs).reverse <+: (l.dropWhile isWs) := by
    rw [← List.reverse_suffix]
    simpa using h2
  exact h3.isInfix.trans h1.isInfix

theorem strContains_of_infix {hay needle : String}
    (h : needle.data <:+: hay.data) : strContains hay needle = true := by
  rw [strContains, containsL_iff]; exact h

/-! ### `dedupFirst` (Python `dict.fromkeys`) -/

theorem mem_dedupFirstAux (a : String) :
    ∀ (l seen : List String), a ∈ dedupFirstAux seen l ↔ a ∈ l ∧ a ∉ seen := by
  intro l
  induction l with
  | nil => intro seen; simp [dedupFirstAux]
  | cons x xs ih =>
      intro seen
      by_cases hx : x ∈ seen
      · simp only [dedupFirstAux, if_pos hx, ih, List.mem_cons]
        constructor
        · rintro ⟨hm, hs⟩; exact ⟨Or.inr hm, hs⟩
        · rintro ⟨hm | hm, hs⟩
          · subst hm; exact absurd hx hs
          · exact ⟨hm, hs⟩
      · simp only [dedupFirstAux, if_neg hx, List.mem_cons, ih]
        constructor
        · rintro (rfl | ⟨hm, hs⟩)
          · exact ⟨Or.inl rfl, hx⟩
          · exact ⟨Or.inr hm, fun hc => hs (Or.inr hc)⟩
        · rintro ⟨rfl | hm, hs⟩
          · exact Or.inl rfl
          · by_cases hax : a = x
            · exact Or.inl hax
            · refine Or.inr ⟨hm, fun hc => ?_⟩
              rcases hc with h | h
              · exact hax h
              · exact hs h

theorem mem_dedupFirst (a : String) (l : List String) :
    a ∈ dedupFirst l ↔ a ∈ l := by
  simp [dedupFirst, mem_dedupFirstAux]

theorem sublist_dedupFirstAux :
    ∀ (l seen : List String), List.Sublist (dedupFirstAux seen l) l := by
  intro l
  induction l with
  | nil => intro seen; simp [dedupFirstAux]
  | cons x xs ih =>
      intro seen
      by_cases hx : x ∈ seen
      · simpa [dedupFirstAux, hx] using (ih seen).cons x
      · simpa [dedupFirstAux, hx] using (ih (x :: seen)).cons₂ x

theorem sublist_dedupFirst (l : List String) : List.Sublist (dedupFirst l) l :=
  sublist_dedupFirstAux l []

theorem nodup_dedupFirstAux : ∀ (l seen : List String), (dedupFirstAux seen l).Nodup := by
  intro l
  induction l with
  | nil => intro seen; simp [dedupFirstAux]
  | cons x xs ih =>
      intro seen
      by_cases hx : x ∈ seen
      · simpa [dedupFirstAux, hx] using ih seen
      · simp only [dedupFirstAux, if_neg hx, List.nodup_cons]
        refine ⟨fun hc => ?_, ih (x :: seen)⟩
        exact ((mem_dedupFirstAux x xs (x :: seen)).mp hc).2 (List.mem_cons_self x seen)

theorem nodup_dedupFirst (l : List String) : (dedupFirst l).Nodup :=
  nodup_dedupFirstAux l []

/-! ### `sortStrings` (Python `sorted`) -/

theorem leCharsB_total : ∀ (a b : List Char), leCharsB a b = true ∨ leCharsB b a = true := by
  intro a
  induction a with
  | nil => intro b; left; simp [leCharsB]
  | cons x xs ih =>
      intro b
      cases b with
      | nil => right; simp [leCharsB]
      | cons y ys =>
          by_cases hxy : x.toNat < y.toNat
          · left; simp [leCharsB, hxy]
          · by_cases hyx : y.toNat < x.toNat
            · right; simp [leCharsB, hyx]
            · have := ih ys
              rcases this with h | h
              · left; simp [leCharsB, hxy, hyx, h]
              · right; simp [leCharsB, hxy, hyx, h]

theorem leCharsB_trans :
    ∀ (a b c : List Char), leCharsB a b = true → leCharsB b c = true → leCharsB a c = true := by
  intro a
  induction a with
  | nil => intro b c _ _; simp [leCharsB]
  | cons x xs ih =>
      intro b c hab hbc
      cases b with
      | nil => simp [leCharsB] at hab
      | cons y ys =>
          cases c with
          | nil => simp [leCharsB] at hbc
          | cons z zs =>
              simp only [leCharsB] at hab hbc ⊢
              by_cases hxy : x.toNat < y.toNat
              · simp only [if_pos hxy] at hab
                by_cases hyz : y.toNat < z.toNat
                · have hxz : x.toNat < z.toNat := Nat.lt_trans hxy hyz
                  simp [hxz]
                · by_cases hzy : z.toNat < y.toNat
                  · simp [if_neg hyz, if_pos hzy] at hbc
                  · have hxz : x.toNat < z.toNat := by omega
                    simp [hxz]
              · by_cases hyx : y.toNat < x.toNat
                · simp [if_neg hxy, if_pos hyx] at hab
                · by_cases hyz : y.toNat < z.toNat
                  · have hxz : x.toNat < z.toNat := by omega
                    simp [hxz]
                  · by_cases hzy : z.toNat < y.toNat
                    · simp [if_neg hyz, if_pos hzy] at hbc
                    · have h1 : ¬ x.toNat < z.toNat := by omega
                      have h2 : ¬ z.toNat < x.toNat := by omega
                      simp only [if_neg hxy, if_neg hyx] at hab
                      simp only [if_neg hyz, if_neg hzy] at hbc
                      simp [if_neg h1, if_neg h2, ih ys zs hab hbc]

theorem strLeB_total (a b : String) : strLeB a b = true ∨ strLeB b a = true :=
  leCharsB_total a.data b.data

theorem strLeB_trans {a b c : String}
    (hab : strLeB a b = true) (hbc : strLeB b c = true) : strLeB a c = true :=
  leCharsB_trans a.data b.data c.data hab hbc

theorem mem_insertSorted (x a : String) :
    ∀ l, a ∈ insertSorted x l ↔ a = x ∨ a ∈ l := by
  intro l
  induction l with
  | nil => simp [insertSorted]
  | cons y ys ih =>
      by_cases h : strLeB x y = true
      · simp [insertSorted, h]
      · simp only [insertSorted, if_neg h, List.mem_cons, ih]
        tauto

theorem perm_insertSorted (x : String) : ∀ l, List.Perm (insertSorted x l) (x :: l) := by
  intro l
  induction l with
  | nil => simp [insertSorted]
  | cons y ys ih =>
      by_cases h : strLeB x y = true
      · simp [insertSorted, h]
      · simp only [insertSorted, if_neg h]
        exact (ih.cons y).trans (List.Perm.swap x y ys)

theorem perm_sortStrings : ∀ l : List String, List.Perm (sortStrings l) l := by
  intro l
  induction l with
  | nil => simp [sortStrings]
  | cons x xs ih =>
      exact (perm_insertSorted x (sortStrings xs)).trans (ih.cons x)

theorem pairwise_insertSorted (x : String) :
    ∀ l, List.Pairwise (fun a b => strLeB a b = true) l →
      List.Pairwise (fun a b => strLeB a b = true) (insertSorted x l) := by
  intro l
  induction l with
  | nil => intro _; simp [insertSorted]
  | cons y ys ih =>
      intro hp
      rcases List.pairwise_cons.mp hp with ⟨hy, hys⟩
      by_cases h : strLeB x y = true
      · simp only [insertSorted, if_pos h]
        refine List.Pairwise.cons ?_ hp
        intro z hz
        rcases List.mem_cons.mp hz with rfl | hz
        · exact h
        · exact strLeB_trans h (hy z hz)
      · simp only [insertSorted, if_neg h]
        have hyx : strLeB y x = true := by
          rcases strLeB_total x y with h' | h'
          · exact absurd h' h
          · exact h'
        refine List.Pairwise.cons ?_ (ih hys)
        intro z hz
        rcases (mem_insertSorted x z ys).mp hz with rfl | hz
        · exact hyx
        · exact hy z hz

theorem sorted_sortStrings :
    ∀ l : List String, List.Pairwise (fun a b => strLeB a b = true) (sortStrings l) := by
  intro l
  induction l with
  | nil => simp [sortStrings]
  | cons x xs ih => exact pairwise_insertSorted x (sortStrings xs) ih

theorem mem_sortStrings (a : String) (l : List String) :
    a ∈ sortStrings l ↔ a ∈ l :=
  (perm_sortStrings l).mem_iff

theorem nodup_sortStrings {l : List String} (h : l.Nodup) : (sortStrings l).Nodup :=
  ((perm_sortStrings l).nodup_iff).mpr h

/-! ### `splitL` / `joinL` (Python `", ".join` and `.split(", ")`) -/

theorem splitL_sep_head (rest : List Char) :
    splitL (',' :: ' ' :: rest) = [] :: splitL rest := by
  simp [splitL]

theorem splitL_cons_of_ne (c1 c2 : Char) (rest : List Char) (h : ¬(c1 = ',' ∧ c2 = ' ')) :
    splitL (c1 :: c2 :: rest) =
      match splitL (c2 :: rest) with
      | [] => [[c1]]
      | p :: ps => (c1 :: p) :: ps := by
  simp [splitL, h]

theorem splitL_ne_nil (l : List Char) : splitL l ≠ [] := by
  induction l using splitL.induct with
  | case1 => simp [splitL]
  | case2 c => simp [splitL]
  | case3 c1 c2 rest h ih => simp [splitL, h]
  | case4 c1 c2 rest h heq ih => exact absurd heq ih
  | case5 c1 c2 rest h p ps heq ih =>
      rw [splitL_cons_of_ne c1 c2 rest h, heq]
      simp

theorem splitL_sep (a : List Char) :
    ∀ b, splitL (a ++ ',' :: ' ' :: b) = splitL a ++ splitL b := by
  induction a using splitL.induct with
  | case1 =>
      intro b
      rw [List.nil_append, splitL_sep_head]
      simp [splitL]
  | case2 c =>
      intro b
      have hne : ¬((c : Char) = ',' ∧ (',' : Char) = ' ') := by
        rintro ⟨-, h2⟩; exact absurd h2 (by decide)
      rw [List.singleton_append, splitL_cons_of_ne c ',' (' ' :: b) hne, splitL_sep_head]
      simp [splitL]
  | case3 c1 c2 rest h ih =>
      intro b
      obtain ⟨rfl, rfl⟩ := h
      show splitL (',' :: ' ' :: (rest ++ ',' :: ' ' :: b)) =
        splitL (',' :: ' ' :: rest) ++ splitL b
      rw [splitL_sep_head, splitL_sep_head, ih b]
      simp
  | case4 c1 c2 rest h heq ih =>
      exact absurd heq (splitL_ne_nil _)
  | case5 c1 c2 rest h p ps heq ih =>
      intro b
      show splitL (c1 :: c2 :: (rest ++ ',' :: ' ' :: b)) =
        splitL (c1 :: c2 :: rest) ++ splitL b
      rw [splitL_cons_of_ne c1 c2 (rest ++ ',' :: ' ' :: b) h,
          splitL_cons_of_ne c1 c2 rest h]
      have hib : splitL (c2 :: (rest ++ ',' :: ' ' :: b)) = (p :: ps) ++ splitL b := by
        have := ih b
        rw [List.cons_append] at this
        rw [this, heq]
      rw [hib, heq]
      simp

theorem splitL_joinL (x : List Char) :
    ∀ xs : List (List Char), splitL (joinL (x :: xs)) = splitL x ++ xs.flatMap splitL := by
  intro xs
  induction xs generalizing x with
  | nil => simp [joinL]
  | cons y ys ih =>
      show splitL (x ++ ',' :: ' ' :: joinL (y :: ys)) = _
      rw [splitL_sep, ih y]
      simp

theorem splitCS_joinCS (x : String) (xs : List String) :
    splitCS (joinCS (x :: xs)) = (x :: xs).flatMap splitCS := by
  show (splitL (joinL (x.data :: xs.map String.data))).map String.mk = _
  rw [splitL_joinL]
  simp only [List.map_append, List.flatMap_cons]
  congr 1
  induction xs with
  | nil => simp
  | cons y ys ih => simp [List.flatMap_cons, ih, List.map_append, splitCS]

/-! ### `gatherSkills` characterization -/

theorem mem_gatherSkills_iff (s : String) :
    ∀ page : List PageNode, s ∈ gatherSkills page ↔
      ∃ pre t rest, page = pre ++ PageNode.heading t :: rest ∧
        strContains (strLower (strStrip t)) "skill" = true ∧
        ∃ ls, firstListAfter rest = some ls ∧ s ∈ linkSkills ls := by
  intro page
  induction page with
  | nil =>
      simp only [gatherSkills, List.not_mem_nil, false_iff]
      rintro ⟨pre, t, rest, h, -⟩
      exact absurd h.symm (by simp)
  | cons node page' ih =>
      cases node with
      | heading t =>
          by_cases hc : strContains (strLower (strStrip t)) "skill" = true
          · rw [show gatherSkills (PageNode.heading t :: page') =
                (match firstListAfter page' with
                  | some ls => linkSkills ls
                  | none => []) ++ gatherSkills page' from by simp [gatherSkills, hc]]
            rw [List.mem_append, ih]
            constructor
            · rintro (hm | ⟨pre, t', rest, heq, hc', ls, hfl, hmem⟩)
              · cases hfl : firstListAfter page' with
                | none => rw [hfl] at hm; simp at hm
                | some ls =>
                    rw [hfl] at hm
                    exact ⟨[], t, page', rfl, hc, ls, hfl, hm⟩
              · exact ⟨PageNode.heading t :: pre, t', rest, by rw [heq]; rfl, hc', ls, hfl, hmem⟩
            · rintro ⟨pre, t', rest, heq, hc', ls, hfl, hmem⟩
              cases pre with
              | nil =>
                  simp only [List.nil_append, List.cons.injEq] at heq
                  obtain ⟨ht, hrest⟩ := heq
                  left
                  rw [hrest, hfl]
                  exact hmem
              | cons n pre' =>
                  simp only [List.cons_append, List.cons.injEq] at heq
                  exact Or.inr ⟨pre', t', rest, heq.2, hc', ls, hfl, hmem⟩
          · rw [show gatherSkills (PageNode.heading t :: page') = gatherSkills page' from by
                simp [gatherSkills, hc]]
            rw [ih]
            constructor
            · rintro ⟨pre, t', rest, heq, hc', ls, hfl, hmem⟩
              exact ⟨PageNode.heading t :: pre, t', rest, by rw [heq]; rfl, hc', ls, hfl, hmem⟩
            · rintro ⟨pre, t', rest, heq, hc', ls, hfl, hmem⟩
              cases pre with
              | nil =>
                  simp only [List.nil_append, List.cons.injEq] at heq
                  obtain ⟨ht, hrest⟩ := heq
                  injection ht with ht'
                  exact absurd (ht' ▸ hc') hc
              | cons n pre' =>
                  simp only [List.cons_append, List.cons.injEq] at heq
                  exact ⟨pre', t', rest, heq.2, hc', ls, hfl, hmem⟩
      | ul ls0 =>
          rw [show gatherSkills (PageNode.ul ls0 :: page') = gatherSkills page' from rfl, ih]
          constructor
          · rintro ⟨pre, t', rest, heq, hc', ls, hfl, hmem⟩
            exact ⟨PageNode.ul ls0 :: pre, t', rest, by rw [heq]; rfl, hc', ls, hfl, hmem⟩
          · rintro ⟨pre, t', rest, heq, hc', ls, hfl, hmem⟩
            cases pre with
            | nil =>
                simp only [List.nil_append, List.cons.injEq] at heq
                exact absurd heq.1 (by simp)
            | cons n pre' =>
                simp only [List.cons_append, List.cons.injEq] at heq
                exact ⟨pre', t', rest, heq.2, hc', ls, hfl, hmem⟩
      | other =>
          rw [show gatherSkills (PageNode.other :: page') = gatherSkills page' from rfl, ih]
          constructor
          · rintro ⟨pre, t', rest, heq, hc', ls, hfl, hmem⟩
            exact ⟨PageNode.other :: pre, t', rest, by rw [heq]; rfl, hc', ls, hfl, hmem⟩
          · rintro ⟨pre, t', rest, heq, hc', ls, hfl, hmem⟩
            cases pre with
            | nil =>
                simp only [List.nil_append, List.cons.injEq] at heq
                exact absurd heq.1 (by simp)
            | cons n pre' =>
                simp only [List.cons_append, List.cons.injEq] at heq
                exact ⟨pre', t', rest, heq.2, hc', ls, hfl, hmem⟩

/-! ### Small facts used by the update/list composition -/

theorem workdayExact_eq {r : SkillRecord} {w : String}
    (h : workdayExactMatches r w = true) :
    strStrip (strLower r.workday_skill) = strStrip (strLower w) := by
  simpa [workdayExactMatches] using h

theorem workdayFilterMatches_of_exact {r : SkillRecord} {w : String}
    (hw : strStrip (strLower w) = strLower w)
    (h : workdayExactMatches r w = true) :
    workdayFilterMatches r w = true := by
  apply strContains_of_infix
  have heq : strStrip (strLower r.workday_skill) = strLower w :=
    (workdayExact_eq h).trans hw
  have hinf : trimL ((strLower r.workday_skill).data) <:+: (strLower r.workday_skill).data :=
    trimL_infix _
  have hdata : (strLower w).data = trimL ((strLower r.workday_skill).data) := by
    rw [← heq]; rfl
  rw [hdata]
  exact hinf

theorem list_skills_workday_only (file : Option Store) (w : String)
    (hw : truthy (some w) = true)
    (hval : (load_df file).any (workdayFilterMatches · w) = true) :
    list_skills file none (some w) none =
      Except.ok ((load_df file).filter (workdayFilterMatches · w)) := by
  have hne : w.isEmpty = false := by
    cases h : w.isEmpty
    · rfl
    · simp [truthy, h] at hw
  simp [list_skills, truthy, hne, hval]

theorem isEmpty_false_of_ne {w : String} (hw : w ≠ "") : w.isEmpty = false := by
  cases h : w.isEmpty
  · rfl
  · exact absurd ((String.isEmpty_iff w).mp h) hw

/-! ## Claims -/

/-- C10: for every state of the skill store file — the file absent and the
store empty included — the list operation with no filters given raises no
error and returns every record in the store (the empty list when the file is
absent). -/
theorem c10_list_unfiltered_total (file : Option Store) :
    list_skills file none none none = Except.ok (load_df file) ∧
      load_df none = ([] : Store) := by
  refine ⟨?_, rfl⟩
  simp [list_skills, truthy]

/-- C9: on a non-empty store with no row whose trimmed, case-insensitive
`workday_skill` equals the given value, delete by that `workday_skill`
selector raises a not-found error and the persisted file is unchanged (no
save happens on the error path). -/
theorem c9_delete_not_found_leaves_store (df : Store) (w : String)
    (_hne : df ≠ []) (hw : w ≠ "")
    (hnomatch : ∀ r ∈ df, workdayExactMatches r w = false) :
    delete_skill (some df) none (some w) = Except.error "workday_skill not found" ∧
      delete_skill_file_after (some df) none (some w) = some df := by
  have hany : df.any (workdayExactMatches · w) = false := by
    rw [List.any_eq_false]
    intro x hx
    simp [hnomatch x hx]
  have hwe : w.isEmpty = false := isEmpty_false_of_ne hw
  constructor
  · simp [delete_skill, truthy, hwe, load_df, hany]
  · simp [delete_skill_file_after, delete_skill, truthy, hwe, load_df, hany]

/-- C9 witness: a concrete non-empty store and a selector matching nothing. -/
theorem c9_witness :
    delete_skill (some [⟨"1", "x", "", "", "", "", "SUCCESS"⟩]) none (some "nonexistent")
        = Except.error "workday_skill not found" ∧
      delete_skill_file_after (some [⟨"1", "x", "", "", "", "", "SUCCESS"⟩]) none
          (some "nonexistent")
        = some [⟨"1", "x", "", "", "", "", "SUCCESS"⟩] :=
  c9_delete_not_found_leaves_store [⟨"1", "x", "", "", "", "", "SUCCESS"⟩] "nonexistent"
    (by decide) (by decide) (by decide)

/-- C8: every row returned by a successful `get_lightcast_ready_df` call has a
`lightcast_skill` that is non-empty and not whitespace-only. -/
theorem c8_lightcast_ready_nonblank (file : Option Store)
    (rid w : Option String) (rows : List SkillRecord)
    (h : get_lightcast_ready_df file rid w = Except.ok rows) :
    ∀ r ∈ rows, strStrip r.lightcast_skill ≠ "" := by
  intro r hr
  have hbase : ∀ {x : SkillRecord},
      x ∈ (load_df file).filter (fun s => strStrip s.lightcast_skill != "") →
      strStrip x.lightcast_skill ≠ "" := fun hx =>
    bne_iff_ne.mp (List.mem_filter.mp hx).2
  simp only [get_lightcast_ready_df] at h
  split at h
  · exact absurd h (by simp)
  · split at h
    · exact absurd h (by simp)
    · split at h
      · exact absurd h (by simp)
      · simp only [Except.ok.injEq] at h
        subst h
        split at hr
        · split at hr
          · exact hbase (List.mem_filter.mp (List.mem_filter.mp hr).1).1
          · exact hbase (List.mem_filter.mp hr).1
        · split at hr
          · exact hbase (List.mem_filter.mp hr).1
          · exact hbase hr

/-- C8 witness: a concrete store whose single row is lightcast-ready. -/
theorem c8_witness :
    strStrip (SkillRecord.mk "1" "w" "X" "" "" "" "SUCCESS").lightcast_skill ≠ "" :=
  c8_lightcast_ready_nonblank (some [⟨"1", "w", "X", "", "", "", "SUCCESS"⟩]) none none
    [⟨"1", "w", "X", "", "", "", "SUCCESS"⟩] rfl
    ⟨"1", "w", "X", "", "", "", "SUCCESS"⟩ (by simp)

/-- C6: for every processed input row, an empty taxonomy result set yields a
NO_MATCH record with empty canonical fields, a transport/HTTP failure yields
an ERROR record with empty canonical fields, and a non-empty result set
yields a SUCCESS record whose `lightcast_skill` / `lightcast_skill_id` are
verbatim the first result's name and id; the record produced for the row is
what `normalize_file` stores. -/
theorem c6_normalize_statuses (search : String → TaxonomyOutcome)
    (row : InputRow) (rec : SkillRecord)
    (h : normalize_row search row = some rec) :
    (search (strStrip row.skill_name) = TaxonomyOutcome.ok [] →
        rec.status = "NO_MATCH" ∧ rec.lightcast_skill = "" ∧ rec.lightcast_skill_id = "") ∧
    (∀ m, search (strStrip row.skill_name) = TaxonomyOutcome.fail m →
        rec.status = "ERROR" ∧ rec.lightcast_skill = "" ∧ rec.lightcast_skill_id = "") ∧
    (∀ s rest, search (strStrip row.skill_name) = TaxonomyOutcome.ok (s :: rest) →
        rec.status = "SUCCESS" ∧ rec.lightcast_skill = s.name ∧
          rec.lightcast_skill_id = s.id) ∧
    (∀ rows : List InputRow, row ∈ rows → rec ∈ normalize_file search rows) := by
  refine ⟨?_, ?_, ?_, ?_⟩
  · intro heq
    simp only [normalize_row, heq] at h
    split at h
    · exact absurd h (by simp)
    · simp only [Option.some.injEq] at h
      subst h
      exact ⟨rfl, rfl, rfl⟩
  · intro m heq
    simp only [normalize_row, heq] at h
    split at h
    · exact absurd h (by simp)
    · simp only [Option.some.injEq] at h
      subst h
      exact ⟨rfl, rfl, rfl⟩
  · intro s rest heq
    simp only [normalize_row, heq] at h
    split at h
    · exact absurd h (by simp)
    · simp only [Option.some.injEq] at h
      subst h
      exact ⟨rfl, rfl, rfl⟩
  · intro rows hrow
    exact List.mem_filterMap.mpr ⟨row, hrow, h⟩

/-- Taxonomy oracle of the spec example (C6 witness). -/
def c6OracleW : String → TaxonomyOutcome := fun _ =>
  TaxonomyOutcome.ok
    [⟨"Python (Programming Language)", "KS1200364C9C1LK3V5Q1", "ST3",
      "Information Technology"⟩]

/-- Input row of the spec example (C6 witness). -/
def c6RowW : InputRow := ⟨"42", "python programming"⟩

/-- Stored record of the spec example (C6 witness). -/
def c6RecW : SkillRecord :=
  ⟨"42", "python programming", "Python (Programming Language)",
   "KS1200364C9C1LK3V5Q1", "ST3", "Information Technology", "SUCCESS"⟩

/-- C6 witness: the spec example — `{remote_skill_id: "42", workday_skill:
"python programming"}` with a taxonomy match is stored as SUCCESS with the
name and id verbatim. -/
theorem c6_witness :
    normalize_row c6OracleW c6RowW = some c6RecW ∧
      (c6RecW.status = "SUCCESS" ∧
        c6RecW.lightcast_skill = "Python (Programming Language)" ∧
        c6RecW.lightcast_skill_id = "KS1200364C9C1LK3V5Q1") :=
  ⟨rfl,
    (c6_normalize_statuses c6OracleW c6RowW c6RecW rfl).2.2.1
      ⟨"Python (Programming Language)", "KS1200364C9C1LK3V5Q1", "ST3",
        "Information Technology"⟩ [] rfl⟩

/-- Example row used in the C7 statement. -/
def c7Row (sk : String) : CourseRow :=
  ⟨"7", "wd", "lc", "lid", "lc", "LIGHTCAST", "Course N", "slug-n", "L", sk⟩

/-- C7: for one group of emitted rows sharing the six key columns,
`course_name`, `course_slug` and `course_link` are merged by order-preserving
first-occurrence deduplication joined with ", "; `course_skills` is re-split
on ", " across all rows of the group and re-deduplicated before rejoining;
`dedupFirst` is a genuine first-wins dedup (duplicate-free, a sublist of its
input, same membership); and the concrete example: grouped rows with
`course_skills` "A, B" and "B, C" merge to "A, B, C". -/
theorem c7_aggregation_merges (g0 : CourseRow) (rest : List CourseRow) :
    (aggGroup g0 rest).course_name =
        joinCS (dedupFirst ((g0 :: rest).map (·.course_name))) ∧
    (aggGroup g0 rest).course_slug =
        joinCS (dedupFirst ((g0 :: rest).map (·.course_slug))) ∧
    (aggGroup g0 rest).course_link =
        joinCS (dedupFirst ((g0 :: rest).map (·.course_link))) ∧
    (aggGroup g0 rest).course_skills =
        joinCS (dedupFirst ((g0 :: rest).flatMap (fun r => splitCS r.course_skills))) ∧
    (∀ l : List String, (dedupFirst l).Nodup ∧ List.Sublist (dedupFirst l) l ∧
        ∀ a, a ∈ dedupFirst l ↔ a ∈ l) ∧
    (aggGroup (c7Row "A, B") [c7Row "B, C"]).course_skills = "A, B, C" := by
  refine ⟨rfl, rfl, rfl, ?_,
    fun l => ⟨nodup_dedupFirst l, sublist_dedupFirst l, fun a => mem_dedupFirst a l⟩,
    rfl⟩
  show aggSkills ((g0 :: rest).map (·.course_skills)) = _
  unfold aggSkills
  rw [show ((g0 :: rest).map (·.course_skills)) =
      g0.course_skills :: rest.map (·.course_skills) from rfl]
  rw [splitCS_joinCS]
  rw [show (g0.course_skills :: rest.map (·.course_skills)) =
      (g0 :: rest).map (·.course_skills) from rfl]
  rw [List.flatMap_map]

/-- C4 counterexample: on the GET `/skills` endpoint a validation failure —
the store raising its not-found `ValueError` — is returned as HTTP 500, not
as a 404/400. -/
theorem c4_counterexample :
    list_skills (some []) (some "1") none none
        = Except.error "remote_skill_id not found" ∧
      api_list_skills (some []) (some "1") none none
        = ApiResult.httpError 500 "remote_skill_id not found" ∧
      (500 : Nat) ≠ 404 ∧ (500 : Nat) ≠ 400 :=
  ⟨rfl, rfl, by decide, by decide⟩

/-- C4 amended: the update, delete, lightcast-ready and coursera
mapped-skills listing handlers map a `ValueError` to 404 (400 for delete)
and any other exception to 500, each with the exception message as the
detail; the GET `/skills` handler instead maps every exception — validation
failures included — to 500 with the message. -/
theorem c4_amended_status_mapping :
    (∀ m, handle_update_result (Except.error (PyError.valueError m))
        = ApiResult.httpError 404 m) ∧
    (∀ m, handle_update_result (Except.error (PyError.otherError m))
        = ApiResult.httpError 500 m) ∧
    (∀ m, handle_delete_result (Except.error (PyError.valueError m))
        = ApiResult.httpError 400 m) ∧
    (∀ m, handle_delete_result (Except.error (PyError.otherError m))
        = ApiResult.httpError 500 m) ∧
    (∀ m, handle_lightcast_ready_result (Except.error (PyError.valueError m))
        = ApiResult.httpError 404 m) ∧
    (∀ m, handle_lightcast_ready_result (Except.error (PyError.otherError m))
        = ApiResult.httpError 500 m) ∧
    (∀ m, handle_coursera_list_result (Except.error (PyError.valueError m))
        = ApiResult.httpError 404 m) ∧
    (∀ m, handle_coursera_list_result (Except.error (PyError.otherError m))
        = ApiResult.httpError 500 m) ∧
    (∀ e, handle_list_result (Except.error e) = ApiResult.httpError 500 (pyMsg e)) ∧
    (∀ file rid w l m, list_skills file rid w l = Except.error m →
        api_list_skills file rid w l = ApiResult.httpError 500 m) := by
  refine ⟨fun m => rfl, fun m => rfl, fun m => rfl, fun m => rfl, fun m => rfl,
    fun m => rfl, fun m => rfl, fun m => rfl, fun e => ?_, fun file rid w l m h => ?_⟩
  · cases e <;> rfl
  · simp [api_list_skills, liftVE, h, handle_list_result, pyMsg]

/-- C4 witness: a concrete delegated validation failure surfaced as a 500 by
the GET `/skills` handler. -/
theorem c4_witness :
    api_list_skills (some []) none (some "zzz") none
        = ApiResult.httpError 500 "workday_skill not found" :=
  c4_amended_status_mapping.2.2.2.2.2.2.2.2.2 (some []) none (some "zzz") none
    "workday_skill not found" rfl

/-- C5 counterexample: a delete call providing *both* selectors does not
raise; it deletes by `remote_skill_id` and ignores the `workday_skill`
selector (the row whose workday skill is "y" survives). -/
theorem c5_counterexample :
    delete_skill (some [⟨"1", "x", "", "", "", "", "SUCCESS"⟩,
        ⟨"2", "y", "", "", "", "", "SUCCESS"⟩]) (some "1") (some "y")
      = Except.ok [⟨"2", "y", "", "", "", "", "SUCCESS"⟩] :=
  rfl

/-- C5 amended: delete requires *at least* one truthy selector (neither is an
error); when both are given, `remote_skill_id` takes precedence and
`workday_skill` is ignored; each branch applies its matching semantics
(trimmed exact for `remote_skill_id`, trimmed case-insensitive exact for
`workday_skill`) and fails if it matches nothing. -/
theorem c5_amended_delete_selectors (file : Option Store) (rid w : Option String) :
    (truthy rid = false → truthy w = false →
        delete_skill file rid w
          = Except.error "Either remote_skill_id or workday_skill must be provided") ∧
    (truthy rid = true → delete_skill file rid w = delete_skill file rid none) ∧
    (truthy rid = true →
        (load_df file).any (remoteMatches · (rid.getD "")) = false →
        delete_skill file rid w = Except.error "remote_skill_id not found") ∧
    (truthy rid = true →
        (load_df file).any (remoteMatches · (rid.getD "")) = true →
        delete_skill file rid w
          = Except.ok ((load_df file).filter fun r => !remoteMatches r (rid.getD ""))) ∧
    (truthy rid = false → truthy w = true →
        (load_df file).any (workdayExactMatches · (w.getD "")) = false →
        delete_skill file rid w = Except.error "workday_skill not found") ∧
    (truthy rid = false → truthy w = true →
        (load_df file).any (workdayExactMatches · (w.getD "")) = true →
        delete_skill file rid w
          = Except.ok ((load_df file).filter fun r => !workdayExactMatches r (w.getD ""))) := by
  refine ⟨?_, ?_, ?_, ?_, ?_, ?_⟩
  · intro h1 h2
    simp [delete_skill, h1, h2]
  · intro h1
    simp [delete_skill, h1]
  · intro h1 h2
    simp [delete_skill, h1, h2]
  · intro h1 h2
    simp [delete_skill, h1, h2]
  · intro h1 h2 h3
    simp [delete_skill, h1, h2, h3]
  · intro h1 h2 h3
    simp [delete_skill, h1, h2, h3]

/-- C5 witness: with both selectors given the call behaves exactly as with
the `remote_skill_id` selector alone. -/
theorem c5_witness :
    delete_skill (some [⟨"3", "a", "", "", "", "", "SUCCESS"⟩]) (some "3") (some "a")
      = delete_skill (some [⟨"3", "a", "", "", "", "", "SUCCESS"⟩]) (some "3") none :=
  (c5_amended_delete_selectors (some [⟨"3", "a", "", "", "", "", "SUCCESS"⟩])
    (some "3") (some "a")).2.1 rfl

/-- C1 counterexample: on a store where the remote-id filter "1" matches row
one and the workday filter "y" matches row two, both individual existence
validations pass, the conjunctive filtering selects no row, and the call
returns the empty list instead of raising a not-found error. -/
theorem c1_counterexample :
    list_skills (some [⟨"1", "x", "", "", "", "", "SUCCESS"⟩,
        ⟨"2", "y", "", "", "", "", "SUCCESS"⟩]) (some "1") (some "y") none
      = Except.ok [] :=
  rfl

/-- C1 amended: for filter values free of regex metacharacters (on which the
pandas regex `str.contains` coincides with case-insensitive substring
containment), each *given* filter is validated individually against the
whole store before any filtering — in order remote, workday, lightcast, a
given filter that matches no row of the full store raises not-found — and
when every given filter individually matches some row, the filters are
applied conjunctively and the call succeeds, possibly with an empty result
list. -/
theorem c1_amended_individual_validation (file : Option Store)
    (rid w l : Option String)
    (_hwlit : regexLiteral (w.getD "") = true)
    (_hllit : regexLiteral (l.getD "") = true) :
    ((truthy rid && !((load_df file).any (remoteMatches · (rid.getD "")))) = true →
        list_skills file rid w l = Except.error "remote_skill_id not found") ∧
    ((truthy rid && !((load_df file).any (remoteMatches · (rid.getD "")))) = false →
      (truthy w && !((load_df file).any (workdayFilterMatches · (w.getD "")))) = true →
        list_skills file rid w l = Except.error "workday_skill not found") ∧
    ((truthy rid && !((load_df file).any (remoteMatches · (rid.getD "")))) = false →
      (truthy w && !((load_df file).any (workdayFilterMatches · (w.getD "")))) = false →
      (truthy l && !((load_df file).any (lightcastFilterMatches · (l.getD "")))) = true →
        list_skills file rid w l = Except.error "lightcast_skill not found") ∧
    ((truthy rid && !((load_df file).any (remoteMatches · (rid.getD "")))) = false →
      (truthy w && !((load_df file).any (workdayFilterMatches · (w.getD "")))) = false →
      (truthy l && !((load_df file).any (lightcastFilterMatches · (l.getD "")))) = false →
        list_skills file rid w l = Except.ok
          (let df := load_df file
           let f1 := if truthy rid then df.filter (remoteMatches · (rid.getD "")) else df
           let f2 := if truthy w then f1.filter (workdayFilterMatches · (w.getD "")) else f1
           if truthy l then f2.filter (lightcastFilterMatches · (l.getD "")) else f2)) := by
  refine ⟨?_, ?_, ?_, ?_⟩
  · intro h1
    simp [list_skills, h1]
  · intro h1 h2
    simp [list_skills, h1, h2]
  · intro h1 h2 h3
    simp [list_skills, h1, h2, h3]
  · intro h1 h2 h3
    simp [list_skills, h1, h2, h3]

/-- C1 witness: a store and a single given filter that matches, so the call
succeeds with the conjunctively filtered rows. -/
theorem c1_witness :
    list_skills (some [⟨"1", "x", "", "", "", "", "SUCCESS"⟩]) (some "1") none none
      = Except.ok [⟨"1", "x", "", "", "", "", "SUCCESS"⟩] :=
  (c1_amended_individual_validation (some [⟨"1", "x", "", "", "", "", "SUCCESS"⟩])
    (some "1") none none (by decide) (by decide)).2.2.2 (by decide) rfl rfl

/-- C3 counterexample: on a page with two headings whose texts contain
"skill", each followed by its own list, the code collects the link texts of
*both* lists ("A, B"), while taking only the first such heading's list — as
the claim words it — would give "B". -/
theorem c3_counterexample :
    fetch_course_skills [PageNode.heading "Skills you gain", PageNode.ul ["B"],
        PageNode.heading "Recommended skills", PageNode.ul ["A"]] = "A, B" ∧
      fetch_course_skills_spec_first_heading [PageNode.heading "Skills you gain",
        PageNode.ul ["B"], PageNode.heading "Recommended skills", PageNode.ul ["A"]] = "B" ∧
      ("A, B" : String) ≠ "B" :=
  ⟨rfl, rfl, by decide⟩

/-- C3 amended: the extraction collects, for *every* heading whose stripped
text contains "skill" case-insensitively (not only the first such heading),
the non-empty stripped link texts of the first list following that heading,
and returns them deduplicated and sorted lexicographically before joining
with ", ". -/
theorem c3_amended_extraction_all_headings (page : List PageNode) :
    ∃ out : List String,
      fetch_course_skills page = joinCS out ∧
      out.Nodup ∧
      List.Pairwise (fun a b => strLeB a b = true) out ∧
      ∀ s, s ∈ out ↔
        ∃ pre t rest, page = pre ++ PageNode.heading t :: rest ∧
          strContains (strLower (strStrip t)) "skill" = true ∧
          ∃ ls, firstListAfter rest = some ls ∧ s ∈ linkSkills ls := by
  refine ⟨sortStrings (dedupFirst (gatherSkills page)), rfl,
    nodup_sortStrings (nodup_dedupFirst _), sorted_sortStrings _, fun s => ?_⟩
  rw [mem_sortStrings, mem_dedupFirst, mem_gatherSkills_iff]

/-- C2 counterexample: after `update("py", "new")`, listing with the workday
filter "py" also returns the row whose workday skill is "pyx" — matched by
substring containment only — and that row's `lightcast_skill` is still its
old value, not the newly set one. -/
theorem c2_counterexample :
    update_lightcast_skill (some [⟨"1", "py", "old1", "", "", "", "SUCCESS"⟩,
        ⟨"2", "pyx", "old2", "", "", "", "SUCCESS"⟩]) "py" "new"
      = Except.ok [⟨"1", "py", "new", "", "", "", "SUCCESS"⟩,
          ⟨"2", "pyx", "old2", "", "", "", "SUCCESS"⟩] ∧
    list_skills (some [⟨"1", "py", "new", "", "", "", "SUCCESS"⟩,
        ⟨"2", "pyx", "old2", "", "", "", "SUCCESS"⟩]) none (some "py") none
      = Except.ok [⟨"1", "py", "new", "", "", "", "SUCCESS"⟩,
          ⟨"2", "pyx", "old2", "", "", "", "SUCCESS"⟩] ∧
    (SkillRecord.mk "2" "pyx" "old2" "" "" "" "SUCCESS").lightcast_skill ≠ "new" :=
  ⟨rfl, rfl, by decide⟩

/-- C2 amended: after `update(w, v)` succeeds (with `w` non-empty, trimmed
and free of regex metacharacters, so the pandas regex `str.contains` of the
list step coincides with substring containment), listing with the workday
filter `w` succeeds, its result contains a row whose `lightcast_skill` is
the newly set `v`, and *every* returned row whose workday skill matches `w`
exactly (trimmed, case-insensitive) carries `v`; rows matched only by
substring containment may keep their old value. -/
theorem c2_amended_update_then_list (file : Option Store) (w v : String)
    (df' : Store)
    (hw : strStrip (strLower w) = strLower w) (hne : w ≠ "")
    (_hlit : regexLiteral w = true)
    (hupd : update_lightcast_skill file w v = Except.ok df') :
    ∃ rows, list_skills (some df') none (some w) none = Except.ok rows ∧
      (∃ r ∈ rows, r.lightcast_skill = v) ∧
      (∀ r ∈ rows, workdayExactMatches r w = true → r.lightcast_skill = v) := by
  simp only [update_lightcast_skill] at hupd
  by_cases hany : (load_df file).any (workdayExactMatches · w) = true
  case neg =>
    have hfalse : (load_df file).any (workdayExactMatches · w) = false :=
      Bool.eq_false_iff.mpr hany
    rw [if_pos (by simp [hfalse])] at hupd
    exact absurd hupd (by simp)
  case pos =>
  rw [if_neg (by simp [hany])] at hupd
  simp only [Except.ok.injEq] at hupd
  obtain ⟨r0, hr0mem, hr0⟩ := List.any_eq_true.mp hany
  have htw : truthy (some w) = true := by
    simp [truthy, isEmpty_false_of_ne hne]
  have hupdr0 :
      (fun r : SkillRecord => if workdayExactMatches r w then
        { r with lightcast_skill := v } else r) r0
      = { r0 with lightcast_skill := v } := by
    simp [hr0]
  have hr0' : { r0 with lightcast_skill := v } ∈ df' := by
    rw [← hupd, ← hupdr0]
    exact List.mem_map_of_mem _ hr0mem
  have hwm0 : workdayExactMatches { r0 with lightcast_skill := v } w = true := by
    simpa [workdayExactMatches] using hr0
  have hfm0 : workdayFilterMatches { r0 with lightcast_skill := v } w = true :=
    workdayFilterMatches_of_exact hw hwm0
  have hvalid : (load_df (some df')).any (workdayFilterMatches · w) = true :=
    List.any_eq_true.mpr ⟨{ r0 with lightcast_skill := v }, hr0', hfm0⟩
  refine ⟨df'.filter (workdayFilterMatches · w),
    list_skills_workday_only (some df') w htw hvalid, ?_, ?_⟩
  · exact ⟨{ r0 with lightcast_skill := v },
      List.mem_filter.mpr ⟨hr0', hfm0⟩, rfl⟩
  · intro r hrmem hex
    have hrdf' : r ∈ df' := (List.mem_filter.mp hrmem).1
    rw [← hupd] at hrdf'
    obtain ⟨r1, hr1mem, hr1eq⟩ := List.mem_map.mp hrdf'
    by_cases hx : workdayExactMatches r1 w = true
    · rw [← hr1eq]
      simp [hx]
    · rw [← hr1eq] at hex
      simp only [if_neg hx] at hex
      exact absurd hex hx

/-- C2 witness: a concrete store on which the amended property is exercised. -/
theorem c2_witness :
    ∃ rows, list_skills (some [⟨"1", "py", "new", "", "", "", "SUCCESS"⟩])
        none (some "py") none = Except.ok rows ∧
      (∃ r ∈ rows, r.lightcast_skill = "new") ∧
      (∀ r ∈ rows, workdayExactMatches r "py" = true → r.lightcast_skill = "new") :=
  c2_amended_update_then_list (some [⟨"1", "py", "old", "", "", "", "SUCCESS"⟩])
    "py" "new" [⟨"1", "py", "new", "", "", "", "SUCCESS"⟩]
    (by decide) (by decide) (by decide) rfl

end SkillMapping
